import Mathlib

/-!
# static/js/index.js : selector buttons and the upload form

A shallow embedding of the jQuery script `src/static/js/index.js`.

The page is a tree of nodes.  An element is identified by its position in the
tree (the list of child indices from the root), which plays the role of the
DOM object identity: none of the operations of the script moves or removes an
existing element.  The jQuery calls used by the script are modelled as pure
functions on that tree:

* `$(sel)` is the list of the positions of the matching elements in document
  order (`Node.select`); a bare id selector such as `$("#popup")` is resolved
  as jQuery does, to the first element with that id (`popupPath`);
* `.removeClass`, `.addClass`, `.show` act on the own data of each matched
  element; of the display of an element the page records what the script can
  write, namely whether its inline display (`style.display`) is other than
  `none` (`Elem.inlineShown`); what the style sheets of the page add to that is
  not part of the page state;
* `$("<tag/>")`, `.attr`, `.prop`, `.css`, `.text`, `.append`, `.appendTo` build
  the detached form, each call returning the value after the mutation;
* `.on("click", h)` records one listener per matched element; a click on an
  element, from `.trigger("click")` or from the user, runs the listeners of
  that element and then those of each of its ancestors (the event bubbles).
-/

namespace IndexJs

/-! ## The page -/

/-- The own data of a DOM element: tag name, attributes (the `id` among them),
the tokens of the class attribute, properties set by `.prop`, inline styles
other than the display set by `.css`, and whether the inline display of the
element (`style.display`) is other than `none`. -/
structure Elem where
  tag : String
  attrs : List (String × String)
  classes : List String
  props : List (String × Bool)
  styles : List (String × String)
  inlineShown : Bool
deriving DecidableEq

/-- A DOM node: a text node, or an element with its child nodes in order. -/
inductive Node where
  | textNode : String → Node
  | element : Elem → List Node → Node

mutual
/-- Decision procedure for equality of nodes. -/
def Node.decEq : (a b : Node) → Decidable (a = b)
  | Node.textNode s, Node.textNode t =>
    if h : s = t then isTrue (by rw [h]) else isFalse (fun h2 => h (Node.textNode.inj h2))
  | Node.textNode _, Node.element _ _ => isFalse (fun h => Node.noConfusion h)
  | Node.element _ _, Node.textNode _ => isFalse (fun h => Node.noConfusion h)
  | Node.element e cs, Node.element f ds =>
    if h : e = f then
      match Node.decEqList cs ds with
      | isTrue h2 => isTrue (by rw [h, h2])
      | isFalse h2 => isFalse (fun h3 => h2 (Node.element.inj h3).2)
    else isFalse (fun h3 => h (Node.element.inj h3).1)
/-- Decision procedure for equality of lists of nodes. -/
def Node.decEqList : (as bs : List Node) → Decidable (as = bs)
  | [], [] => isTrue rfl
  | [], _ :: _ => isFalse (fun h => List.noConfusion h)
  | _ :: _, [] => isFalse (fun h => List.noConfusion h)
  | a :: as, b :: bs =>
    match Node.decEq a b with
    | isTrue h1 =>
      match Node.decEqList as bs with
      | isTrue h2 => isTrue (by rw [h1, h2])
      | isFalse h2 => isFalse (fun h3 => h2 (List.cons.inj h3).2)
    | isFalse h1 => isFalse (fun h3 => h1 (List.cons.inj h3).1)
end

instance : DecidableEq Node := Node.decEq

/-- The position of a node: child indices from the root, the root being `[]`. -/
abbrev Path := List Nat

/-- Replace the value stored under key `k`, or add the pair at the end. -/
def setKey {β : Type} (k : String) (v : β) (l : List (String × β)) : List (String × β) :=
  if l.any (fun kv => kv.1 == k) then l.map (fun kv => if kv.1 == k then (k, v) else kv)
  else l ++ [(k, v)]

/-- Boolean properties that the DOM reflects in a content attribute of the same
name, among those a form control has. -/
def reflectedProps : List String := ["required", "disabled", "multiple", "autofocus"]

namespace Elem

/-- Value of attribute `k`, as `.attr(k)` reads it. -/
def getAttr (e : Elem) (k : String) : Option String := e.attrs.lookup k

/-- Value of property `k`, as `.prop(k)` reads it. -/
def getProp (e : Elem) (k : String) : Option Bool := e.props.lookup k

/-- Test `.hasClass(c)`. -/
def hasClass (e : Elem) (c : String) : Bool := e.classes.contains c

/-- Own-data effect of `.addClass(c)`: the token is added unless already there. -/
def addClass (c : String) (e : Elem) : Elem :=
  if e.classes.contains c then e else { e with classes := e.classes ++ [c] }

/-- Own-data effect of `.removeClass(c)`: every occurrence of the token goes. -/
def removeClass (c : String) (e : Elem) : Elem :=
  { e with classes := e.classes.filter (fun d => d != c) }

/-- Own-data effect of `.show()`: the call writes the inline display of the
element, which it leaves other than `none` (an inline `none` is taken off, and
an element that a style sheet still hides gets the default display of its tag
inline).  Whether the element is then displayed is up to the style sheets: a
rule marked `!important` that sets `display: none` keeps it hidden. -/
def showInline (e : Elem) : Elem := { e with inlineShown := true }

/-- Apply `f` to the element when it matches the selector, else leave it. -/
def onlyIf (sel : Elem → Bool) (f : Elem → Elem) (e : Elem) : Elem :=
  if sel e then f e else e

end Elem

/-! ## The selectors of the script -/

/-- Selector `button.selector-button`. -/
def isSelectorButton (e : Elem) : Bool := e.tag == "button" && e.hasClass "selector-button"

/-- Selector `button#videos-tool-button`. -/
def isVideosToolButton (e : Elem) : Bool :=
  e.tag == "button" && e.getAttr "id" == some "videos-tool-button"

/-- Selector `button#upload-video-button`. -/
def isUploadVideoButton (e : Elem) : Bool :=
  e.tag == "button" && e.getAttr "id" == some "upload-video-button"

/-- Selector `#popup`. -/
def isPopup (e : Elem) : Bool := e.getAttr "id" == some "popup"

/-- Selector `.popups`. -/
def isPopups (e : Elem) : Bool := e.hasClass "popups"

/-- Any `button` element. -/
def isButton (e : Elem) : Bool := e.tag == "button"

/-! ## Tree operations -/

namespace Node

/-- Child nodes of a node (none for a text node). -/
def children : Node → List Node
  | textNode _ => []
  | element _ cs => cs

/-- Own data of a node when it is an element. -/
def elem? : Node → Option Elem
  | textNode _ => none
  | element e _ => some e

/-- The node at a position. -/
def getAt : Node → Path → Option Node
  | n, [] => some n
  | textNode _, _ :: _ => none
  | element _ cs, i :: p =>
    match cs[i]? with
    | none => none
    | some c => c.getAt p

/-- Own data of the element at a position. -/
def elemAt (n : Node) (p : Path) : Option Elem := (n.getAt p).bind elem?

/-- Child nodes of the element at a position. -/
def childrenAt (n : Node) (p : Path) : Option (List Node) :=
  match n.getAt p with
  | some (element _ cs) => some cs
  | _ => none

/-- Apply `f` to the own data of the element at position `p` (a method call on
`$(this)` or on one matched element). -/
def updateAt (f : Elem → Elem) : Node → Path → Node
  | element e cs, [] => element (f e) cs
  | textNode s, _ => textNode s
  | element e cs, i :: p =>
    match cs[i]? with
    | none => element e cs
    | some c => element e (cs.set i (c.updateAt f p))

/-- Insert `c` as the last child of the element at position `p`. -/
def appendChildAt : Node → Path → Node → Node
  | element e cs, [], c => element e (cs ++ [c])
  | textNode s, _, _ => textNode s
  | element e cs, i :: p, c =>
    match cs[i]? with
    | none => element e cs
    | some d => element e (cs.set i (d.appendChildAt p c))

mutual
/-- Apply `g` to the own data of every element of the tree. -/
def mapElems (g : Elem → Elem) : Node → Node
  | textNode s => textNode s
  | element e cs => element (g e) (mapElemsList g cs)
/-- Apply `g` to the own data of every element of a list of trees. -/
def mapElemsList (g : Elem → Elem) : List Node → List Node
  | [] => []
  | c :: cs => c.mapElems g :: mapElemsList g cs
end

mutual
/-- The matched set `$(sel)`: positions of the elements matching `sel`, in
document order. -/
def select (sel : Elem → Bool) : Node → List Path
  | textNode _ => []
  | element e cs => (if sel e then [[]] else []) ++ selectList sel 0 cs
/-- Matches inside a list of sibling trees, the first of which has index `i`. -/
def selectList (sel : Elem → Bool) (i : Nat) : List Node → List Path
  | [] => []
  | c :: cs => (c.select sel).map (fun p => i :: p) ++ selectList sel (i + 1) cs
end

mutual
/-- Every node below a node, in document order. -/
def descendants : Node → List Node
  | textNode _ => []
  | element _ cs => descendantsList cs
/-- The nodes of a list of trees, with everything below them, in document order. -/
def descendantsList : List Node → List Node
  | [] => []
  | c :: cs => c :: (c.descendants ++ descendantsList cs)
end

/-- Whether the node is an element with the given tag. -/
def hasTag (n : Node) (t : String) : Bool :=
  match n with
  | textNode _ => false
  | element e _ => e.tag == t

/-! ### jQuery methods on a detached element under construction -/

/-- Mutate the own data of a node under construction. -/
def onElem (f : Elem → Elem) : Node → Node
  | textNode s => textNode s
  | element e cs => element (f e) cs

/-- Method `.attr(k, v)`. -/
def attr (n : Node) (k v : String) : Node :=
  n.onElem (fun e => { e with attrs := setKey k v e.attrs })

/-- Method `.prop(k, v)`: the property is set, and for a boolean property that
the DOM reflects in a content attribute of the same name, as `required` is, the
attribute is added with an empty value when `v` is true and it is absent, and
taken off when `v` is false. -/
def prop (n : Node) (k : String) (v : Bool) : Node :=
  n.onElem (fun e =>
    { e with
      props := setKey k v e.props
      attrs :=
        if reflectedProps.contains k then
          if v then (if e.attrs.any (fun kv => kv.1 == k) then e.attrs else e.attrs ++ [(k, "")])
          else e.attrs.filter (fun kv => kv.1 != k)
        else e.attrs })

/-- Method `.css(k, v)`. -/
def css (n : Node) (k v : String) : Node :=
  n.onElem (fun e => { e with styles := setKey k v e.styles })

/-- Method `.addClass(c)`. -/
def addClass (n : Node) (c : String) : Node := n.onElem (Elem.addClass c)

/-- Method `.text(s)`: the content becomes the single text node `s`. -/
def text (n : Node) (s : String) : Node :=
  match n with
  | textNode t => textNode t
  | element e _ => element e [textNode s]

/-- Method `.append(c)`: `c` becomes the last child. -/
def append (n : Node) (c : Node) : Node := n.appendChildAt [] c

/-- Method `.appendTo(parent)` with a detached parent: the parent after the insertion. -/
def appendTo (c : Node) (parent : Node) : Node := parent.append c

end Node

/-- Call `$("<tag/>")`: a new detached element, without attributes, inline
styles or children. -/
def create (tag : String) : Node := Node.element ⟨tag, [], [], [], [], true⟩ []

/-! ## The two click handlers -/

/-- Call `$(sel).removeClass(c)` on the page. -/
def removeClassAll (sel : Elem → Bool) (c : String) (pg : Node) : Node :=
  pg.mapElems (Elem.onlyIf sel (Elem.removeClass c))

/-- Call `$(sel).show()` on the page: the inline display of each matched element
is written. -/
def showAll (sel : Elem → Bool) (pg : Node) : Node :=
  pg.mapElems (Elem.onlyIf sel Elem.showInline)

/-- Handler bound on `button.selector-button` (index.js lines 2-5), run with
`this` the element at position `this`. -/
def selectorClick (this : Path) (pg : Node) : Node :=
  (removeClassAll isSelectorButton "selected" pg).updateAt (Elem.addClass "selected") this

/-- The form built by the upload handler (index.js lines 9-41). -/
def uploadForm : Node :=
  let uploadForm := create "form"
    |>.attr "action" "/api/video/upload"
    |>.attr "method" "post"
    |>.attr "enctype" "multipart/form-data"
    |>.attr "target" "formdummy"
  let uploadForm := create "h2"
    |>.text "Upload video"
    |>.addClass "red-hat-bold"
    |>.css "margin-top" "0.5em"
    |>.appendTo uploadForm
  let p1 := create "p"
  let p1 := create "label"
    |>.text "File: "
    |>.append (create "input"
      |>.attr "name" "file"
      |>.attr "type" "file"
      |>.prop "required" true)
    |>.appendTo p1
  let uploadForm := p1.appendTo uploadForm
  let p2 := create "p"
  let p2 := create "label"
    |>.attr "for" "name"
    |>.text "Description:"
    |>.append (create "br")
    |>.append (create "input" |>.attr "name" "name" |>.attr "type" "text")
    |>.appendTo p2
  let uploadForm := p2.appendTo uploadForm
  create "input"
    |>.attr "type" "submit"
    |>.attr "value" "Upload"
    |>.appendTo uploadForm

/-- Result of `$("#popup")`: jQuery resolves a bare id selector with
`getElementById`, the first element in document order with that id. -/
def popupPath (pg : Node) : Option Path := (pg.select isPopup).head?

/-- Call `form.appendTo("#popup")` on the page: the form becomes the last child
of the matched element; nothing is inserted when there is none. -/
def appendToPopup (form : Node) (pg : Node) : Node :=
  match popupPath pg with
  | none => pg
  | some p => pg.appendChildAt p form

/-- Handler bound on `button#upload-video-button` (index.js lines 8-44). -/
def uploadClick (pg : Node) : Node :=
  showAll isPopups (appendToPopup uploadForm pg)

/-! ## Event binding and the document-ready function -/

/-- The two handlers of the script. -/
inductive Handler where
  | selection
  | upload
deriving DecidableEq

/-- Run a handler with `this` the element at the given position. -/
def Handler.run : Handler → Path → Node → Node
  | Handler.selection, this, pg => selectorClick this pg
  | Handler.upload, _, pg => uploadClick pg

/-- The page together with the click listeners bound so far, in binding order. -/
structure State where
  page : Node
  listeners : List (Path × Handler)

/-- Call `$(sel).on("click", h)`: one listener per matched element. -/
def onClick (sel : Elem → Bool) (h : Handler) (st : State) : State :=
  { st with listeners := st.listeners ++ (st.page.select sel).map (fun p => (p, h)) }

/-- Run the listeners bound on the element at position `q`. -/
def fireAt (ls : List (Path × Handler)) (q : Path) (pg : Node) : Node :=
  ls.foldl (fun s l => if l.1 = q then l.2.run q s else s) pg

/-- The first `k` proper ancestors of a position, nearest first. -/
def ancestorsAux : Nat → Path → List Path
  | 0, _ => []
  | k + 1, t => t.dropLast :: ancestorsAux k t.dropLast

/-- Positions of the proper ancestors of the node at `t`, nearest first. -/
def ancestors (t : Path) : List Path := ancestorsAux t.length t

/-- Propagation path of an event: the target, then each ancestor up to the root. -/
def bubblePath (t : Path) : List Path := t :: ancestors t

/-- A click event on the element at `t`: the listeners of the target run, then
those of each ancestor in turn (the event bubbles). -/
def dispatchClick (ls : List (Path × Handler)) (t : Path) (pg : Node) : Node :=
  (bubblePath t).foldl (fun s q => fireAt ls q s) pg

/-- Call `$(sel).trigger("click")`: a click event on each matched element in
document order. -/
def triggerClick (sel : Elem → Bool) (st : State) : State :=
  { st with page := (st.page.select sel).foldl (fun s t => dispatchClick st.listeners t s) st.page }

/-- The document-ready function (index.js lines 1-45) run on the initial page. -/
def ready (pg : Node) : State :=
  onClick isUploadVideoButton Handler.upload
    (triggerClick isVideosToolButton
      (onClick isSelectorButton Handler.selection ⟨pg, []⟩))

/-! ## Observations used to state the properties -/

/-- The page with the class `selected` taken off every selector button: what the
page looks like outside the selection marks. -/
def clearSel (pg : Node) : Node := removeClassAll isSelectorButton "selected" pg

/-- A selector button that carries the class `selected`. -/
def isSelectedButton (e : Elem) : Bool := isSelectorButton e && e.hasClass "selected"

/-- A button that carries the class `selected`. -/
def isMarkedButton (e : Elem) : Bool := isButton e && e.hasClass "selected"

/-- An element of class `popups` whose inline display is not `none`. -/
def isInlineShownPopups (e : Elem) : Bool := isPopups e && e.inlineShown

/-- Attribute `k` of a node that is an element. -/
def Node.getAttr (n : Node) (k : String) : Option String := n.elem?.bind (fun e => e.getAttr k)

/-- Property `k` of a node that is an element. -/
def Node.getProp (n : Node) (k : String) : Option Bool := n.elem?.bind (fun e => e.getProp k)

/-- The `input` elements below a node, in document order. -/
def Node.inputs (n : Node) : List Node := n.descendants.filter (fun d => d.hasTag "input")

/-- Child nodes of the element `$("#popup")`. -/
def popupChildren (pg : Node) : Option (List Node) :=
  (popupPath pg).bind (fun p => pg.childrenAt p)

/-- Number of `form` elements in a list of nodes. -/
def formCount (cs : List Node) : Nat := (cs.filter (fun c => c.hasTag "form")).length

/-- Page after `n` runs of the upload handler. -/
def uploadClicks : Nat → Node → Node
  | 0, pg => pg
  | n + 1, pg => uploadClick (uploadClicks n pg)

/-- Page after the selection handler has run for each button of the list in turn. -/
def selectorClicks (bs : List Path) (pg : Node) : Node :=
  bs.foldl (fun s b => selectorClick b s) pg

/-- Page after a sequence of user clicks, on the elements at the positions `ts`
in turn, with the listeners `ls` bound.  The handlers leave the selector
buttons and the upload triggers of the page the same, so the listeners that the
document-ready function binds on a page are also those bound on every page the
clicks lead to. -/
def clicks (ls : List (Path × Handler)) (ts : List Path) (pg : Node) : Node :=
  ts.foldl (fun s t => dispatchClick ls t s) pg

/-! ## Example pages -/

/-- An element given by its tag, its id if any, its classes, whether its inline
display is other than `none`, and its children. -/
def el (tag : String) (id : Option String) (classes : List String) (inlineShown : Bool)
    (cs : List Node) : Node :=
  Node.element
    ⟨tag, (match id with | none => [] | some i => [("id", i)]), classes, [], [], inlineShown⟩ cs

/-- A page with two selector buttons (the second one selected), the upload
button, and a `#popup` of class `popups` with inline display `none`. -/
def pageTools : Node :=
  el "body" none [] true
    [el "button" (some "videos-tool-button") ["selector-button"] true [],
     el "button" (some "images-tool-button") ["selector-button", "selected"] true [],
     el "button" (some "upload-video-button") [] true [],
     el "div" (some "popup") ["popups"] false []]

/-- A page whose `button#videos-tool-button` lacks the class `selector-button`. -/
def pagePlainVideosButton : Node :=
  el "body" none [] true [el "button" (some "videos-tool-button") [] true []]

/-- A page whose `button#videos-tool-button` is a selector button placed inside
another selector button. -/
def pageNestedVideosButton : Node :=
  el "body" none [] true
    [el "button" none ["selector-button"] true
      [el "button" (some "videos-tool-button") ["selector-button"] true []]]

/-- A page with a `#popup`, of inline display `none`, that lacks the class `popups`. -/
def pagePopupNotPopups : Node := el "body" none [] true [el "div" (some "popup") [] false []]

/-- A page with an element of class `popups`, of inline display `none`, and no
element of id `popup`. -/
def pageNoPopup : Node := el "body" none [] true [el "div" none ["popups"] false []]

/-- A page whose upload trigger is also a selector button, next to the
videos-tool selector button and a `#popup` of class `popups` with inline
display `none`. -/
def pageTriggerIsSelector : Node :=
  el "body" none [] true
    [el "button" (some "videos-tool-button") ["selector-button"] true [],
     el "button" (some "upload-video-button") ["selector-button"] true [],
     el "div" (some "popup") ["popups"] false []]

/-- A page whose upload trigger is also a selector button and whose `#popup`
holds a selected selector button. -/
def pageTriggerIsSelectorPopupHoldsButton : Node :=
  el "body" none [] true
    [el "button" (some "upload-video-button") ["selector-button"] true [],
     el "div" (some "popup") ["popups"] true
       [el "button" none ["selector-button", "selected"] true []]]

/-- A page with an upload trigger placed inside another upload trigger. -/
def pageNestedTriggers : Node :=
  el "body" none [] true
    [el "button" (some "upload-video-button") [] true
       [el "button" (some "upload-video-button") [] true []],
     el "div" (some "popup") ["popups"] true []]

/-- A page whose `#popup` holds a form of class `popups` with inline display `none`. -/
def pagePopupHoldsHiddenForm : Node :=
  el "body" none [] true
    [el "div" (some "popup") ["popups"] true [el "form" none ["popups"] false []]]

end IndexJs

namespace IndexJs

/-! ## Lemmas on the tree operations -/

theorem Node.induct {P : Node → Prop} (htext : ∀ s, P (Node.textNode s))
    (helem : ∀ e cs, (∀ c ∈ cs, P c) → P (Node.element e cs)) (n : Node) : P n :=
  @Node.rec P (fun cs => ∀ c ∈ cs, P c) htext (fun e cs ih => helem e cs ih)
    (fun c hc => absurd hc (List.not_mem_nil c))
    (fun c cs hc hcs d hd => by
      rcases List.mem_cons.mp hd with h | h
      · exact h ▸ hc
      · exact hcs d h) n

theorem Node.mapElemsList_eq_map (g : Elem → Elem) (cs : List Node) :
    Node.mapElemsList g cs = cs.map (Node.mapElems g) := by
  induction cs with
  | nil => simp [Node.mapElemsList]
  | cons c cs ih => simp [Node.mapElemsList, ih]

theorem Node.mapElems_element (g : Elem → Elem) (e : Elem) (cs : List Node) :
    (Node.element e cs).mapElems g = Node.element (g e) (cs.map (Node.mapElems g)) := by
  rw [Node.mapElems, Node.mapElemsList_eq_map]

theorem Node.elemAt_nil (n : Node) : n.elemAt [] = n.elem? := by
  cases n <;> simp [Node.elemAt, Node.getAt]

theorem Node.getAt_cons (e : Elem) (cs : List Node) (i : Nat) (p : Path) :
    (Node.element e cs).getAt (i :: p) = (cs[i]?).bind (fun c => c.getAt p) := by
  simp only [Node.getAt]
  cases cs[i]? <;> rfl

theorem Node.elemAt_cons (e : Elem) (cs : List Node) (i : Nat) (p : Path) :
    (Node.element e cs).elemAt (i :: p) = (cs[i]?).bind (fun c => c.elemAt p) := by
  simp only [Node.elemAt, Node.getAt_cons]
  cases cs[i]? <;> rfl

theorem Node.elemAt_text (s : String) (p : Path) : (Node.textNode s).elemAt p = none := by
  cases p <;> rfl

theorem Node.childrenAt_cons (e : Elem) (cs : List Node) (i : Nat) (p : Path) :
    (Node.element e cs).childrenAt (i :: p) = (cs[i]?).bind (fun c => c.childrenAt p) := by
  simp only [Node.childrenAt, Node.getAt_cons]
  cases cs[i]? <;> rfl

theorem Node.childrenAt_text (s : String) (p : Path) : (Node.textNode s).childrenAt p = none := by
  cases p <;> rfl

theorem Node.getAt_mapElems (g : Elem → Elem) (p : Path) :
    ∀ n : Node, (n.mapElems g).getAt p = (n.getAt p).map (Node.mapElems g) := by
  induction p with
  | nil => intro n; simp [Node.getAt]
  | cons i p ih =>
    intro n
    cases n with
    | textNode s => simp [Node.mapElems, Node.getAt]
    | element e cs =>
      rw [Node.mapElems_element, Node.getAt_cons, Node.getAt_cons, List.getElem?_map]
      cases cs[i]? with
      | none => rfl
      | some c => simpa using ih c

theorem Node.elemAt_mapElems (g : Elem → Elem) (n : Node) (p : Path) :
    (n.mapElems g).elemAt p = (n.elemAt p).map g := by
  rw [Node.elemAt, Node.getAt_mapElems, Node.elemAt]
  cases n.getAt p with
  | none => rfl
  | some c => cases c <;> simp [Node.elem?, Node.mapElems]

theorem Node.childrenAt_mapElems (g : Elem → Elem) (n : Node) (p : Path) :
    (n.mapElems g).childrenAt p = (n.childrenAt p).map (List.map (Node.mapElems g)) := by
  rw [Node.childrenAt, Node.getAt_mapElems, Node.childrenAt]
  cases n.getAt p with
  | none => rfl
  | some c => cases c <;> simp [Node.mapElems, Node.mapElemsList_eq_map]

theorem getElem?_set_of_some {α : Type} (l : List α) (i j : Nat) (a b : α) (h : l[i]? = some a) :
    (l.set i b)[j]? = if i = j then some b else l[j]? := by
  have hi : i < l.length := by
    rcases List.getElem?_eq_some.mp h with ⟨hi, _⟩
    exact hi
  by_cases hij : i = j
  · subst hij
    simp [hi]
  · simp [hij, List.getElem?_set_ne hij]

theorem map_set_eq_of {α β : Type} (f : α → β) (a b : α) (h2 : f b = f a) :
    ∀ (l : List α) (i : Nat), l[i]? = some a → (l.set i b).map f = l.map f := by
  intro l
  induction l with
  | nil => intro i h; simp
  | cons x xs ih =>
    intro i h
    cases i with
    | zero =>
      simp at h
      simp [h, h2]
    | succ i =>
      simp at h
      simp [ih i h]

theorem Node.elemAt_updateAt (f : Elem → Elem) (p : Path) :
    ∀ (n : Node) (q : Path),
      (n.updateAt f p).elemAt q = if q = p then (n.elemAt q).map f else n.elemAt q := by
  induction p with
  | nil =>
    intro n q
    cases n with
    | textNode s => simp [Node.updateAt, Node.elemAt_text]
    | element e cs =>
      cases q with
      | nil => simp [Node.updateAt, Node.elemAt_nil, Node.elem?]
      | cons j q => simp [Node.updateAt, Node.elemAt_cons]
  | cons i p ih =>
    intro n q
    cases n with
    | textNode s => simp [Node.updateAt, Node.elemAt_text]
    | element e cs =>
      simp only [Node.updateAt]
      cases hc : cs[i]? with
      | none =>
        simp only []
        by_cases hq : q = i :: p
        · subst hq
          simp [Node.elemAt_cons, hc]
        · simp [hq]
      | some c =>
        simp only []
        cases q with
        | nil => simp [Node.elemAt_nil, Node.elem?]
        | cons j q =>
          rw [Node.elemAt_cons, Node.elemAt_cons, getElem?_set_of_some cs i j c _ hc]
          by_cases hij : i = j
          · subst hij
            simp [hc, ih c q]
          · have hne : ¬ (j = i) := fun h => hij h.symm
            simp [hij, hne]

theorem Node.mapElems_updateAt (g f : Elem → Elem) (p : Path) :
    ∀ n : Node, (∀ e, n.elemAt p = some e → g (f e) = g e) →
      (n.updateAt f p).mapElems g = n.mapElems g := by
  induction p with
  | nil =>
    intro n h
    cases n with
    | textNode s => rfl
    | element e cs =>
      simp only [Node.updateAt, Node.mapElems_element]
      rw [h e (by simp [Node.elemAt_nil, Node.elem?])]
  | cons i p ih =>
    intro n h
    cases n with
    | textNode s => rfl
    | element e cs =>
      simp only [Node.updateAt]
      cases hc : cs[i]? with
      | none => rfl
      | some c =>
        simp only [Node.mapElems_element]
        congr 1
        apply map_set_eq_of (Node.mapElems g) c _ _ cs i hc
        apply ih c
        intro e0 he0
        apply h e0
        simp [Node.elemAt_cons, hc, he0]


/-! ### Matched sets -/

theorem Node.select_element (sel : Elem → Bool) (e : Elem) (cs : List Node) :
    (Node.element e cs).select sel = (if sel e then [[]] else []) ++ Node.selectList sel 0 cs := by
  rw [Node.select]

theorem Node.selectList_congr (sel : Elem → Bool) :
    ∀ (xs ys : List Node) (i : Nat), xs.map (Node.select sel) = ys.map (Node.select sel) →
      Node.selectList sel i xs = Node.selectList sel i ys := by
  intro xs
  induction xs with
  | nil =>
    intro ys i h
    cases ys with
    | nil => rfl
    | cons y ys => simp at h
  | cons x xs ih =>
    intro ys i h
    cases ys with
    | nil => simp at h
    | cons y ys =>
      simp only [List.map_cons, List.cons.injEq] at h
      simp only [Node.selectList, h.1, ih ys (i + 1) h.2]

theorem Node.selectList_append_of_nil (sel : Elem → Bool) (c : Node) (hc : c.select sel = []) :
    ∀ (xs : List Node) (i : Nat), Node.selectList sel i (xs ++ [c]) = Node.selectList sel i xs := by
  intro xs
  induction xs with
  | nil => intro i; simp [Node.selectList, hc]
  | cons x xs ih => intro i; simp [Node.selectList, ih]

theorem Node.nil_not_mem_selectList (sel : Elem → Bool) :
    ∀ (cs : List Node) (k : Nat), [] ∉ Node.selectList sel k cs := by
  intro cs
  induction cs with
  | nil => intro k; simp [Node.selectList]
  | cons c cs ih => intro k; simp [Node.selectList, ih]

theorem Node.cons_mem_selectList (sel : Elem → Bool) (j : Nat) (q : Path) :
    ∀ (cs : List Node) (k : Nat),
      (j :: q) ∈ Node.selectList sel k cs ↔
        k ≤ j ∧ ∃ c, cs[j - k]? = some c ∧ q ∈ c.select sel := by
  intro cs
  induction cs with
  | nil => intro k; simp [Node.selectList]
  | cons c cs ih =>
    intro k
    simp only [Node.selectList, List.mem_append, List.mem_map, List.cons.injEq, ih (k + 1)]
    constructor
    · rintro (⟨a, ha, hk, rfl⟩ | ⟨hk, d, hd, hq⟩)
      · subst hk
        exact ⟨Nat.le_refl _, c, by simp, ha⟩
      · refine ⟨by omega, d, ?_, hq⟩
        have hjk : j - k = (j - (k + 1)) + 1 := by omega
        rw [hjk]
        simpa using hd
    · rintro ⟨hk, d, hd, hq⟩
      by_cases hjk : j = k
      · subst hjk
        left
        simp at hd
        subst hd
        exact ⟨q, hq, rfl, rfl⟩
      · right
        refine ⟨by omega, d, ?_, hq⟩
        have hjk2 : j - k = (j - (k + 1)) + 1 := by omega
        rw [hjk2] at hd
        simpa using hd

theorem Node.mem_select (sel : Elem → Bool) (n : Node) :
    ∀ q : Path, q ∈ n.select sel ↔ ∃ e, n.elemAt q = some e ∧ sel e = true := by
  induction n using Node.induct with
  | htext s => intro q; simp [Node.select, Node.elemAt_text]
  | helem e cs ih =>
    intro q
    rw [Node.select_element]
    cases q with
    | nil =>
      simp only [List.mem_append, Node.nil_not_mem_selectList, or_false, Node.elemAt_nil,
        Node.elem?]
      by_cases h : sel e = true <;> simp [h]
    | cons j q =>
      have h1 : (j :: q) ∉ (if sel e = true then [([] : Path)] else []) := by
        by_cases h : sel e = true <;> simp [h]
      simp only [List.mem_append, h1, false_or, Node.cons_mem_selectList, Nat.zero_le, true_and,
        Nat.sub_zero, Node.elemAt_cons]
      constructor
      · rintro ⟨c, hc, hq⟩
        have hmem : c ∈ cs := List.getElem?_mem hc
        obtain ⟨e1, he1, hs⟩ := (ih c hmem q).mp hq
        exact ⟨e1, by simp [hc, he1], hs⟩
      · rintro ⟨e1, he1, hs⟩
        cases hc : cs[j]? with
        | none => simp [hc] at he1
        | some c =>
          simp [hc] at he1
          exact ⟨c, rfl, (ih c (List.getElem?_mem hc) q).mpr ⟨e1, he1, hs⟩⟩

theorem Node.select_mapElems (sel : Elem → Bool) (g : Elem → Elem) (h : ∀ e, sel (g e) = sel e)
    (n : Node) : (n.mapElems g).select sel = n.select sel := by
  induction n using Node.induct with
  | htext s => rfl
  | helem e cs ih =>
    rw [Node.mapElems_element, Node.select_element, Node.select_element, h e]
    congr 1
    apply Node.selectList_congr
    rw [List.map_map]
    apply List.map_congr_left
    intro c hc
    exact ih c hc

theorem Node.select_updateAt (sel : Elem → Bool) (f : Elem → Elem) (h : ∀ e, sel (f e) = sel e)
    (p : Path) : ∀ n : Node, (n.updateAt f p).select sel = n.select sel := by
  induction p with
  | nil =>
    intro n
    cases n with
    | textNode s => rfl
    | element e cs => simp only [Node.updateAt, Node.select_element, h e]
  | cons i p ih =>
    intro n
    cases n with
    | textNode s => rfl
    | element e cs =>
      simp only [Node.updateAt]
      cases hc : cs[i]? with
      | none => rfl
      | some c =>
        simp only [Node.select_element]
        congr 1
        apply Node.selectList_congr
        exact map_set_eq_of (Node.select sel) c _ (ih c) cs i hc

theorem Node.select_appendChildAt (sel : Elem → Bool) (c : Node) (hc : c.select sel = [])
    (p : Path) : ∀ n : Node, (n.appendChildAt p c).select sel = n.select sel := by
  induction p with
  | nil =>
    intro n
    cases n with
    | textNode s => rfl
    | element e cs =>
      simp only [Node.appendChildAt, Node.select_element, Node.selectList_append_of_nil sel c hc]
  | cons i p ih =>
    intro n
    cases n with
    | textNode s => rfl
    | element e cs =>
      simp only [Node.appendChildAt]
      cases hd : cs[i]? with
      | none => rfl
      | some d =>
        simp only [Node.select_element]
        congr 1
        apply Node.selectList_congr
        exact map_set_eq_of (Node.select sel) d _ (ih d) cs i hd

/-! ### Appending a child -/

theorem Node.childrenAt_appendChildAt (c : Node) (p : Path) :
    ∀ n : Node, (n.appendChildAt p c).childrenAt p = (n.childrenAt p).map (fun cs => cs ++ [c]) := by
  induction p with
  | nil =>
    intro n
    cases n <;> simp [Node.appendChildAt, Node.childrenAt, Node.getAt]
  | cons i p ih =>
    intro n
    cases n with
    | textNode s => simp [Node.appendChildAt, Node.childrenAt_text]
    | element e cs =>
      simp only [Node.appendChildAt]
      cases hd : cs[i]? with
      | none => simp [Node.childrenAt_cons, hd]
      | some d =>
        simp only [Node.childrenAt_cons, getElem?_set_of_some cs i i d _ hd, hd]
        simpa using ih d

theorem Node.elemAt_appendChildAt (c : Node) (p : Path) :
    ∀ (n : Node) (q : Path) (e : Elem), n.elemAt q = some e →
      (n.appendChildAt p c).elemAt q = some e := by
  induction p with
  | nil =>
    intro n q e h
    cases n with
    | textNode s => simpa [Node.appendChildAt] using h
    | element e0 cs =>
      cases q with
      | nil => simpa [Node.appendChildAt, Node.elemAt_nil, Node.elem?] using h
      | cons j q =>
        simp only [Node.appendChildAt, Node.elemAt_cons] at h ⊢
        cases hj : cs[j]? with
        | none => simp [hj] at h
        | some x =>
          have hlt : j < cs.length := (List.getElem?_eq_some.mp hj).1
          rw [List.getElem?_append_left hlt, hj]
          simpa [hj] using h
  | cons i p ih =>
    intro n q e h
    cases n with
    | textNode s => simpa [Node.appendChildAt] using h
    | element e0 cs =>
      simp only [Node.appendChildAt]
      cases hd : cs[i]? with
      | none => simpa using h
      | some d =>
        simp only []
        cases q with
        | nil => simpa [Node.elemAt_nil, Node.elem?] using h
        | cons j q =>
          rw [Node.elemAt_cons, getElem?_set_of_some cs i j d _ hd]
          rw [Node.elemAt_cons] at h
          by_cases hij : i = j
          · subst hij
            simp only [if_true, Option.bind_some]
            apply ih d q e
            simpa [hd] using h
          · simpa [hij] using h


/-! ## Lemmas on the handlers -/

theorem Node.mapElems_mapElems (g h : Elem → Elem) (n : Node) :
    (n.mapElems g).mapElems h = n.mapElems (fun e => h (g e)) := by
  induction n using Node.induct with
  | htext s => rfl
  | helem e cs ih =>
    simp only [Node.mapElems_element, List.map_map, Node.element.injEq, true_and]
    apply List.map_congr_left
    intro c hc
    exact ih c hc

theorem Node.mapElems_idem (g : Elem → Elem) (h : ∀ e, g (g e) = g e) (n : Node) :
    (n.mapElems g).mapElems g = n.mapElems g := by
  rw [Node.mapElems_mapElems]
  congr 1
  funext e
  exact h e

theorem Elem.hasClass_addClass (c d : String) (e : Elem) :
    (Elem.addClass c e).hasClass d = (e.hasClass d || d == c) := by
  cases e with
  | mk tag attrs classes props styles inlineShown =>
    by_cases h : c ∈ classes
    · by_cases hdc : d = c
      · subst hdc
        simp [Elem.addClass, Elem.hasClass, h]
      · simp [Elem.addClass, Elem.hasClass, h, hdc]
    · by_cases hdc : d = c
      · subst hdc
        simp [Elem.addClass, Elem.hasClass, h]
      · simp [Elem.addClass, Elem.hasClass, h, hdc]

theorem Elem.hasClass_removeClass (c d : String) (e : Elem) :
    (Elem.removeClass c e).hasClass d = (e.hasClass d && d != c) := by
  unfold Elem.removeClass Elem.hasClass
  by_cases h1 : d ∈ e.classes <;> by_cases h2 : d = c <;> simp [h1, h2]

theorem Elem.removeClass_addClass (c : String) (e : Elem) :
    Elem.removeClass c (Elem.addClass c e) = Elem.removeClass c e := by
  cases e with
  | mk tag attrs classes props styles inlineShown =>
    by_cases h : c ∈ classes
    · simp [Elem.addClass, Elem.removeClass, h]
    · simp [Elem.addClass, Elem.removeClass, h, List.filter_append]

theorem Elem.removeClass_idem (c : String) (e : Elem) :
    Elem.removeClass c (Elem.removeClass c e) = Elem.removeClass c e := by
  unfold Elem.removeClass
  simp [List.filter_filter]

theorem isSelectorButton_addClass (e : Elem) :
    isSelectorButton (Elem.addClass "selected" e) = isSelectorButton e := by
  have h : (Elem.addClass "selected" e).tag = e.tag := by
    unfold Elem.addClass; split <;> rfl
  simp [isSelectorButton, Elem.hasClass_addClass, h]

theorem isSelectorButton_removeClass (e : Elem) :
    isSelectorButton (Elem.removeClass "selected" e) = isSelectorButton e := by
  have h1 := Elem.hasClass_removeClass "selected" "selector-button" e
  have h2 : (Elem.removeClass "selected" e).tag = e.tag := rfl
  simp only [isSelectorButton, h1, h2]
  have h3 : ("selector-button" != "selected") = true := by decide
  simp [h3]

/-- The own-data effect of `$("button.selector-button").removeClass("selected")`. -/
theorem isSelectorButton_unmark (e : Elem) :
    isSelectorButton (Elem.onlyIf isSelectorButton (Elem.removeClass "selected") e)
      = isSelectorButton e := by
  unfold Elem.onlyIf
  split
  · exact isSelectorButton_removeClass e
  · rfl

theorem unmark_idem (e : Elem) :
    Elem.onlyIf isSelectorButton (Elem.removeClass "selected")
        (Elem.onlyIf isSelectorButton (Elem.removeClass "selected") e)
      = Elem.onlyIf isSelectorButton (Elem.removeClass "selected") e := by
  by_cases h : isSelectorButton e = true
  · simp [Elem.onlyIf, h, isSelectorButton_removeClass, Elem.removeClass_idem]
  · simp [Elem.onlyIf, h]

theorem selectorClick_eq (b : Path) (pg : Node) :
    selectorClick b pg = (clearSel pg).updateAt (Elem.addClass "selected") b := rfl

theorem clearSel_elemAt (pg : Node) (q : Path) :
    (clearSel pg).elemAt q
      = (pg.elemAt q).map (Elem.onlyIf isSelectorButton (Elem.removeClass "selected")) :=
  Node.elemAt_mapElems _ pg q

theorem clearSel_selectorClick (pg : Node) (b : Path) (hb : b ∈ pg.select isSelectorButton) :
    clearSel (selectorClick b pg) = clearSel pg := by
  obtain ⟨e0, he0, hg0⟩ := (Node.mem_select isSelectorButton pg b).mp hb
  rw [selectorClick_eq]
  have h := Node.mapElems_updateAt (Elem.onlyIf isSelectorButton (Elem.removeClass "selected"))
    (Elem.addClass "selected") b (clearSel pg) (by
      intro e he
      rw [clearSel_elemAt, he0] at he
      simp only [Option.map_some', Option.some.injEq] at he
      subst he
      simp [Elem.onlyIf, hg0, isSelectorButton_removeClass, isSelectorButton_addClass,
        Elem.removeClass_addClass])
  unfold clearSel removeClassAll at h ⊢
  rw [h]
  exact Node.mapElems_idem _ unmark_idem pg

theorem select_clearSel (sel : Elem → Bool)
    (h : ∀ e, sel (Elem.onlyIf isSelectorButton (Elem.removeClass "selected") e) = sel e)
    (pg : Node) : (clearSel pg).select sel = pg.select sel :=
  Node.select_mapElems sel _ h pg

theorem select_selectorClick (sel : Elem → Bool)
    (h1 : ∀ e, sel (Elem.removeClass "selected" e) = sel e)
    (h2 : ∀ e, sel (Elem.addClass "selected" e) = sel e)
    (b : Path) (pg : Node) : (selectorClick b pg).select sel = pg.select sel := by
  rw [selectorClick_eq, Node.select_updateAt sel _ h2, select_clearSel sel _ pg]
  intro e
  unfold Elem.onlyIf
  split
  · exact h1 e
  · rfl

theorem selectorClick_elemAt (pg : Node) (b q : Path) :
    (selectorClick b pg).elemAt q
      = if q = b then
          (pg.elemAt q).map (fun e => Elem.addClass "selected"
            (Elem.onlyIf isSelectorButton (Elem.removeClass "selected") e))
        else (pg.elemAt q).map (Elem.onlyIf isSelectorButton (Elem.removeClass "selected")) := by
  rw [selectorClick_eq, Node.elemAt_updateAt, clearSel_elemAt]
  split <;> simp [Option.map_map, Function.comp_def]


theorem Node.selectList_nodup (sel : Elem → Bool) :
    ∀ (cs : List Node) (k : Nat), (∀ c ∈ cs, (c.select sel).Nodup) →
      (Node.selectList sel k cs).Nodup := by
  intro cs
  induction cs with
  | nil => intro k _; simp [Node.selectList]
  | cons c cs ih =>
    intro k h
    simp only [Node.selectList]
    rw [List.nodup_append]
    refine ⟨?_, ih (k + 1) (fun d hd => h d (List.mem_cons_of_mem _ hd)), ?_⟩
    · apply List.Nodup.map
      · intro x y hxy
        exact (List.cons.inj hxy).2
      · exact h c (List.mem_cons_self _ _)
    · intro q hq1 hq2
      obtain ⟨x, _, rfl⟩ := List.mem_map.mp hq1
      have := ((Node.cons_mem_selectList sel k x cs (k + 1)).mp hq2).1
      omega

theorem Node.select_nodup (sel : Elem → Bool) (n : Node) : (n.select sel).Nodup := by
  induction n using Node.induct with
  | htext s => simp [Node.select]
  | helem e cs ih =>
    rw [Node.select_element, List.nodup_append]
    refine ⟨by split <;> simp, Node.selectList_nodup sel cs 0 ih, ?_⟩
    intro q hq1 hq2
    have hq : q = [] := by
      split at hq1
      · simpa using hq1
      · simp at hq1
    subst hq
    exact Node.nil_not_mem_selectList sel cs 0 hq2

theorem eq_singleton_of_nodup {α : Type} (l : List α) (b : α) (hnd : l.Nodup)
    (h : ∀ q, q ∈ l ↔ q = b) : l = [b] := by
  cases l with
  | nil => exact absurd ((h b).mpr rfl) (List.not_mem_nil b)
  | cons x xs =>
    have hx : x = b := (h x).mp (List.mem_cons_self _ _)
    subst hx
    have hxs : xs = [] := by
      apply List.eq_nil_iff_forall_not_mem.mpr
      intro y hy
      have hyx : y = x := (h y).mp (List.mem_cons_of_mem _ hy)
      subst hyx
      exact (List.nodup_cons.mp hnd).1 hy
    rw [hxs]

theorem selectorClick_group (b : Path) (pg : Node) :
    (selectorClick b pg).select isSelectorButton = pg.select isSelectorButton :=
  select_selectorClick isSelectorButton isSelectorButton_removeClass isSelectorButton_addClass b pg

theorem mem_selected_selectorClick (pg : Node) (b : Path) (hb : b ∈ pg.select isSelectorButton)
    (q : Path) : q ∈ (selectorClick b pg).select isSelectedButton ↔ q = b := by
  obtain ⟨e0, he0, hg0⟩ := (Node.mem_select isSelectorButton pg b).mp hb
  rw [Node.mem_select, selectorClick_elemAt]
  constructor
  · rintro ⟨e, he, hs⟩
    by_contra hqb
    rw [if_neg hqb] at he
    cases hq : pg.elemAt q with
    | none => simp [hq] at he
    | some e1 =>
      simp only [hq, Option.map_some', Option.some.injEq] at he
      subst he
      by_cases hg1 : isSelectorButton e1 = true
      · simp [isSelectedButton, Elem.onlyIf, hg1, Elem.hasClass_removeClass] at hs
      · simp [isSelectedButton, Elem.onlyIf, hg1] at hs
  · rintro rfl
    refine ⟨_, by rw [if_pos rfl, he0]; rfl, ?_⟩
    simp [isSelectedButton, Elem.onlyIf, hg0, isSelectorButton_addClass,
      isSelectorButton_removeClass, Elem.hasClass_addClass]

/-! ## The selection handler -/

theorem selectorClick_selectorClick (pg : Node) (a b : Path)
    (ha : a ∈ pg.select isSelectorButton) :
    selectorClick b (selectorClick a pg) = selectorClick b pg := by
  rw [selectorClick_eq, clearSel_selectorClick pg a ha, selectorClick_eq]

theorem selectorClicks_frame (pg : Node) :
    ∀ bs : List Path, (∀ a ∈ bs, a ∈ pg.select isSelectorButton) →
      clearSel (selectorClicks bs pg) = clearSel pg ∧
      (selectorClicks bs pg).select isSelectorButton = pg.select isSelectorButton := by
  intro bs
  induction bs using List.reverseRecOn with
  | nil => intro _; exact ⟨rfl, rfl⟩
  | append_singleton bs a ih =>
    intro h
    have hbs := ih (fun x hx => h x (List.mem_append_left _ hx))
    have ha : a ∈ pg.select isSelectorButton := h a (by simp)
    have hstep : selectorClicks (bs ++ [a]) pg = selectorClick a (selectorClicks bs pg) := by
      simp [selectorClicks, List.foldl_append]
    rw [hstep, selectorClick_group, clearSel_selectorClick _ a (by rw [hbs.2]; exact ha)]
    exact hbs

/-! ## The upload handler -/

theorem isPopup_shown (e : Elem) :
    isPopup (Elem.onlyIf isPopups Elem.showInline e) = isPopup e := by
  unfold Elem.onlyIf
  split <;> rfl

theorem showAll_uploadForm : showAll isPopups uploadForm = uploadForm := by decide

theorem popupPath_appendToPopup (pg : Node) :
    popupPath (appendToPopup uploadForm pg) = popupPath pg := by
  unfold appendToPopup
  cases h : popupPath pg with
  | none => simpa using h
  | some p =>
    simp only []
    unfold popupPath at h ⊢
    rw [Node.select_appendChildAt isPopup uploadForm (by decide) p pg, h]

theorem popupPath_uploadClick (pg : Node) : popupPath (uploadClick pg) = popupPath pg := by
  unfold uploadClick showAll
  rw [← popupPath_appendToPopup pg]
  unfold popupPath
  rw [Node.select_mapElems isPopup _ isPopup_shown]

theorem popupChildren_uploadClick (pg : Node) :
    popupChildren (uploadClick pg)
      = (popupChildren pg).map (fun cs => cs.map (showAll isPopups) ++ [uploadForm]) := by
  unfold popupChildren
  rw [popupPath_uploadClick]
  cases h : popupPath pg with
  | none => rfl
  | some p =>
    show (uploadClick pg).childrenAt p = Option.map _ (pg.childrenAt p)
    unfold uploadClick showAll appendToPopup
    rw [Node.childrenAt_mapElems, h]
    show Option.map _ ((pg.appendChildAt p uploadForm).childrenAt p) = _
    rw [Node.childrenAt_appendChildAt]
    cases pg.childrenAt p with
    | none => rfl
    | some cs =>
      have hf := showAll_uploadForm
      unfold showAll at hf
      simp [hf]

theorem elemAt_uploadClick (pg : Node) (q : Path) (e : Elem) (h : pg.elemAt q = some e) :
    (uploadClick pg).elemAt q = some (Elem.onlyIf isPopups Elem.showInline e) := by
  unfold uploadClick showAll
  rw [Node.elemAt_mapElems]
  have h2 : (appendToPopup uploadForm pg).elemAt q = some e := by
    unfold appendToPopup
    cases popupPath pg with
    | none => exact h
    | some p => exact Node.elemAt_appendChildAt uploadForm p pg q e h
  rw [h2]
  rfl

theorem select_uploadClick (sel : Elem → Bool) (h1 : ∀ e, sel (Elem.showInline e) = sel e)
    (h2 : uploadForm.select sel = []) (pg : Node) :
    (uploadClick pg).select sel = pg.select sel := by
  unfold uploadClick showAll
  rw [Node.select_mapElems sel]
  · unfold appendToPopup
    cases popupPath pg with
    | none => rfl
    | some p => exact Node.select_appendChildAt sel uploadForm h2 p pg
  · intro e
    unfold Elem.onlyIf
    split
    · exact h1 e
    · rfl

theorem hasTag_mapElems (g : Elem → Elem) (hg : ∀ e, (g e).tag = e.tag) (t : String) (c : Node) :
    (c.mapElems g).hasTag t = c.hasTag t := by
  cases c with
  | textNode s => rfl
  | element e cs => simp [Node.mapElems, Node.hasTag, hg e]

theorem formCount_showAll (cs : List Node) :
    formCount (cs.map (showAll isPopups)) = formCount cs := by
  unfold formCount
  rw [List.filter_map, List.length_map]
  congr 1
  apply List.filter_congr
  intro c _
  simp only [Function.comp]
  apply hasTag_mapElems
  intro e
  unfold Elem.onlyIf
  split <;> rfl

theorem formCount_append (xs ys : List Node) :
    formCount (xs ++ ys) = formCount xs + formCount ys := by
  simp [formCount, List.filter_append]

theorem formCount_replicate (n : Nat) : formCount (List.replicate n uploadForm) = n := by
  have h : uploadForm.hasTag "form" = true := by decide
  simp [formCount, List.filter_replicate, h]

theorem showAll_showAll (c : Node) :
    showAll isPopups (showAll isPopups c) = showAll isPopups c := by
  apply Node.mapElems_idem
  intro e
  by_cases h : isPopups e = true
  · have h2 : isPopups (Elem.showInline e) = true := h
    simp [Elem.onlyIf, h, h2, Elem.showInline]
  · simp [Elem.onlyIf, h]

theorem popupChildren_uploadClicks (pg : Node) (cs : List Node) (h : popupChildren pg = some cs) :
    ∀ n : Nat, popupChildren (uploadClicks (n + 1) pg)
      = some (cs.map (showAll isPopups) ++ List.replicate (n + 1) uploadForm) := by
  intro n
  induction n with
  | zero => simp [uploadClicks, popupChildren_uploadClick, h]
  | succ n ih =>
    rw [uploadClicks, popupChildren_uploadClick, ih]
    simp only [Option.map_some', List.map_append, List.map_map, List.map_replicate,
      showAll_uploadForm, Option.some.injEq]
    have h1 : (showAll isPopups ∘ showAll isPopups) = showAll isPopups := by
      funext c
      exact showAll_showAll c
    rw [h1, List.append_assoc]
    congr 1
    rw [List.replicate_succ' (n + 1)]


/-! ## The document-ready function -/

theorem foldl_invariant {α σ : Type} (P : σ → Prop) (f : σ → α → σ) :
    ∀ (l : List α) (s : σ), (∀ s a, a ∈ l → P s → P (f s a)) → P s → P (l.foldl f s) := by
  intro l
  induction l with
  | nil => intro s _ hs; exact hs
  | cons a l ih =>
    intro s h hs
    exact ih (f s a) (fun s1 a1 ha1 => h s1 a1 (List.mem_cons_of_mem _ ha1))
      (h s a (List.mem_cons_self _ _) hs)

theorem foldl_eq_self {α σ : Type} (f : σ → α → σ) :
    ∀ (l : List α) (s : σ), (∀ s a, a ∈ l → f s a = s) → l.foldl f s = s := by
  intro l
  induction l with
  | nil => intro s _; rfl
  | cons a l ih =>
    intro s h
    rw [List.foldl_cons, h s a (List.mem_cons_self _ _)]
    exact ih s (fun s1 a1 ha1 => h s1 a1 (List.mem_cons_of_mem _ ha1))

theorem group_of_clearSel_eq (s pg : Node) (h : clearSel s = clearSel pg) :
    s.select isSelectorButton = pg.select isSelectorButton := by
  rw [← select_clearSel isSelectorButton isSelectorButton_unmark s, h,
    select_clearSel isSelectorButton isSelectorButton_unmark pg]

/-- The listeners bound by `$("button.selector-button").on("click", ...)` on page `pg`. -/
theorem selection_listeners (pg : Node) :
    ∀ l ∈ (pg.select isSelectorButton).map (fun p => (p, Handler.selection)),
      l.2 = Handler.selection ∧ l.1 ∈ pg.select isSelectorButton := by
  intro l hl
  obtain ⟨p, hp, rfl⟩ := List.mem_map.mp hl
  exact ⟨rfl, hp⟩

theorem fireAt_frame (pg : Node) (ls : List (Path × Handler)) (q : Path)
    (hls : ∀ l ∈ ls, l.2 = Handler.selection ∧ l.1 ∈ pg.select isSelectorButton)
    (s : Node) (hs : clearSel s = clearSel pg) : clearSel (fireAt ls q s) = clearSel pg := by
  unfold fireAt
  apply foldl_invariant (fun s => clearSel s = clearSel pg) _ ls s _ hs
  intro s1 l hl hs1
  by_cases hq : l.1 = q
  · simp only [hq, if_true, (hls l hl).1, Handler.run]
    rw [clearSel_selectorClick s1 q, hs1]
    rw [group_of_clearSel_eq s1 pg hs1, ← hq]
    exact (hls l hl).2
  · simpa [hq] using hs1

theorem dispatchClick_frame (pg : Node) (ls : List (Path × Handler)) (t : Path)
    (hls : ∀ l ∈ ls, l.2 = Handler.selection ∧ l.1 ∈ pg.select isSelectorButton)
    (s : Node) (hs : clearSel s = clearSel pg) :
    clearSel (dispatchClick ls t s) = clearSel pg := by
  unfold dispatchClick
  apply foldl_invariant (fun s => clearSel s = clearSel pg) _ _ s _ hs
  intro s1 q _ hs1
  exact fireAt_frame pg ls q hls s1 hs1

theorem fireAt_of_no_listener (ls : List (Path × Handler)) (q : Path) (s : Node)
    (h : ∀ l ∈ ls, l.1 ≠ q) : fireAt ls q s = s := by
  unfold fireAt
  apply foldl_eq_self
  intro s1 l hl
  simp [h l hl]

theorem fireAt_selected (pg : Node) (t : Path) :
    ∀ ls : List (Path × Handler),
      (∀ l ∈ ls, l.2 = Handler.selection ∧ l.1 ∈ pg.select isSelectorButton) →
      (∃ l ∈ ls, l.1 = t) → ∀ s, clearSel s = clearSel pg →
      t ∈ (fireAt ls t s).select isSelectedButton := by
  intro ls
  induction ls using List.reverseRecOn with
  | nil => intro _ h; simp at h
  | append_singleton ls l ih =>
    intro hls hex s hs
    have hls1 : ∀ x ∈ ls, x.2 = Handler.selection ∧ x.1 ∈ pg.select isSelectorButton :=
      fun x hx => hls x (List.mem_append_left _ hx)
    have hl := hls l (by simp)
    have hstep : fireAt (ls ++ [l]) t s
        = if l.1 = t then l.2.run t (fireAt ls t s) else fireAt ls t s := by
      simp [fireAt, List.foldl_append]
    rw [hstep]
    have hfr := fireAt_frame pg ls t hls1 s hs
    by_cases hlt : l.1 = t
    · simp only [hlt, if_true, hl.1, Handler.run]
      apply (mem_selected_selectorClick _ t _ t).mpr rfl
      rw [group_of_clearSel_eq _ pg hfr, ← hlt]
      exact hl.2
    · simp only [hlt, if_false]
      apply ih hls1 _ s hs
      obtain ⟨x, hx, hxt⟩ := hex
      rcases List.mem_append.mp hx with h1 | h1
      · exact ⟨x, h1, hxt⟩
      · simp at h1
        subst h1
        exact absurd hxt hlt

theorem ready_page (pg : Node) :
    (ready pg).page
      = (pg.select isVideosToolButton).foldl
          (fun s t => dispatchClick
            ((pg.select isSelectorButton).map (fun p => (p, Handler.selection))) t s) pg := by
  simp [ready, onClick, triggerClick]

theorem clearSel_ready (pg : Node) : clearSel (ready pg).page = clearSel pg := by
  rw [ready_page]
  apply foldl_invariant (fun s => clearSel s = clearSel pg) _ _ pg _ rfl
  intro s t _ hs
  exact dispatchClick_frame pg _ t (selection_listeners pg) s hs

theorem ready_last_target_selected (pg : Node) (t : Path)
    (hlast : (pg.select isVideosToolButton).getLast? = some t)
    (hsel : t ∈ pg.select isSelectorButton)
    (hanc : ∀ q ∈ ancestors t, q ∉ pg.select isSelectorButton) :
    t ∈ (ready pg).page.select isSelectedButton := by
  obtain ⟨ts, hts⟩ := List.getLast?_eq_some_iff.mp hlast
  rw [ready_page, hts, List.foldl_append]
  simp only [List.foldl_cons, List.foldl_nil]
  have hfr : clearSel (ts.foldl (fun s t => dispatchClick
      ((pg.select isSelectorButton).map (fun p => (p, Handler.selection))) t s) pg)
      = clearSel pg := by
    apply foldl_invariant (fun s => clearSel s = clearSel pg) _ _ pg _ rfl
    intro s t _ hs
    exact dispatchClick_frame pg _ t (selection_listeners pg) s hs
  generalize ts.foldl (fun s t => dispatchClick
      ((pg.select isSelectorButton).map (fun p => (p, Handler.selection))) t s) pg = s0 at hfr ⊢
  unfold dispatchClick bubblePath
  rw [List.foldl_cons, foldl_eq_self]
  · apply fireAt_selected pg t _ (selection_listeners pg) _ s0 hfr
    exact ⟨(t, Handler.selection), List.mem_map.mpr ⟨t, hsel, rfl⟩, rfl⟩
  · intro s q hq
    apply fireAt_of_no_listener
    intro l hl hlq
    obtain ⟨p, hp, rfl⟩ := List.mem_map.mp hl
    simp only at hlq
    subst hlq
    exact hanc p hq hp


/-! ## Frame lemmas -/

theorem hasClass_unmark (d : String) (hd : (d != "selected") = true) (e : Elem) :
    (Elem.onlyIf isSelectorButton (Elem.removeClass "selected") e).hasClass d = e.hasClass d := by
  unfold Elem.onlyIf
  split
  · rw [Elem.hasClass_removeClass, hd, Bool.and_true]
  · rfl

theorem isPopups_unmark (e : Elem) :
    isPopups (Elem.onlyIf isSelectorButton (Elem.removeClass "selected") e) = isPopups e :=
  hasClass_unmark "popups" (by decide) e

theorem inlineShown_unmark (e : Elem) :
    (Elem.onlyIf isSelectorButton (Elem.removeClass "selected") e).inlineShown = e.inlineShown := by
  unfold Elem.onlyIf
  split <;> rfl

theorem isInlineShownPopups_unmark (e : Elem) :
    isInlineShownPopups (Elem.onlyIf isSelectorButton (Elem.removeClass "selected") e)
      = isInlineShownPopups e := by
  unfold isInlineShownPopups
  rw [isPopups_unmark, inlineShown_unmark]

theorem isPopup_unmark (e : Elem) :
    isPopup (Elem.onlyIf isSelectorButton (Elem.removeClass "selected") e) = isPopup e := by
  unfold Elem.onlyIf
  split <;> rfl

theorem popupPath_clearSel (pg : Node) : popupPath (clearSel pg) = popupPath pg := by
  unfold popupPath
  rw [select_clearSel isPopup isPopup_unmark]

theorem popupChildren_clearSel (pg : Node) :
    popupChildren (clearSel pg) = (popupChildren pg).map (List.map clearSel) := by
  unfold popupChildren
  rw [popupPath_clearSel]
  cases popupPath pg with
  | none => rfl
  | some p =>
    show (clearSel pg).childrenAt p = Option.map _ (pg.childrenAt p)
    unfold clearSel removeClassAll
    rw [Node.childrenAt_mapElems]

theorem popupChildren_of_clearSel_eq (s pg : Node) (h : clearSel s = clearSel pg) :
    (popupChildren s).map (List.map clearSel) = (popupChildren pg).map (List.map clearSel) := by
  rw [← popupChildren_clearSel, ← popupChildren_clearSel, h]

theorem select_of_clearSel_eq (sel : Elem → Bool)
    (hsel : ∀ e, sel (Elem.onlyIf isSelectorButton (Elem.removeClass "selected") e) = sel e)
    (s pg : Node) (h : clearSel s = clearSel pg) : s.select sel = pg.select sel := by
  rw [← select_clearSel sel hsel s, h, select_clearSel sel hsel pg]

theorem formCount_clearSel (cs : List Node) : formCount (cs.map clearSel) = formCount cs := by
  unfold formCount
  rw [List.filter_map, List.length_map]
  congr 1
  apply List.filter_congr
  intro c _
  simp only [Function.comp]
  apply hasTag_mapElems
  intro e
  unfold Elem.onlyIf
  split <;> rfl

theorem Node.childrenAt_of_elemAt (n : Node) (p : Path) (e : Elem) (h : n.elemAt p = some e) :
    ∃ cs, n.childrenAt p = some cs := by
  unfold Node.elemAt at h
  unfold Node.childrenAt
  cases hg : n.getAt p with
  | none => simp [hg] at h
  | some c =>
    cases c with
    | textNode s => simp [hg, Node.elem?] at h
    | element e1 cs => exact ⟨cs, rfl⟩

/-! ## Clicks -/

theorem ready_listeners (pg : Node) :
    (ready pg).listeners
      = (pg.select isSelectorButton).map (fun p => (p, Handler.selection))
        ++ (pg.select isUploadVideoButton).map (fun p => (p, Handler.upload)) := by
  have h : (ready pg).page.select isUploadVideoButton = pg.select isUploadVideoButton := by
    apply select_of_clearSel_eq isUploadVideoButton _ _ _ (clearSel_ready pg)
    intro e
    unfold Elem.onlyIf
    split <;> rfl
  rw [← h]
  simp [ready, onClick, triggerClick]

theorem mem_ready_listeners (pg : Node) (l : Path × Handler) (hl : l ∈ (ready pg).listeners) :
    (l.2 = Handler.selection ∧ l.1 ∈ pg.select isSelectorButton) ∨
      (l.2 = Handler.upload ∧ l.1 ∈ pg.select isUploadVideoButton) := by
  rw [ready_listeners] at hl
  rcases List.mem_append.mp hl with h | h
  · obtain ⟨p, hp, rfl⟩ := List.mem_map.mp h
    exact Or.inl ⟨rfl, hp⟩
  · obtain ⟨p, hp, rfl⟩ := List.mem_map.mp h
    exact Or.inr ⟨rfl, hp⟩

/-- The handlers leave the selector buttons and the upload triggers of the page
the same, so the listeners bound by the document-ready function are those it
would bind on any later page. -/
theorem ready_listeners_run (h : Handler) (q : Path) (s : Node) :
    (ready (h.run q s)).listeners = (ready s).listeners := by
  rw [ready_listeners, ready_listeners]
  cases h with
  | selection =>
    simp only [Handler.run]
    rw [selectorClick_group,
      select_selectorClick isUploadVideoButton (fun _ => rfl)
        (fun e => by unfold Elem.addClass; split <;> rfl)]
  | upload =>
    simp only [Handler.run]
    rw [select_uploadClick isSelectorButton (fun _ => rfl) (by decide),
      select_uploadClick isUploadVideoButton (fun _ => rfl) (by decide)]

theorem ready_listeners_ready (pg : Node) :
    (ready (ready pg).page).listeners = (ready pg).listeners := by
  rw [ready_listeners, ready_listeners pg,
    group_of_clearSel_eq _ pg (clearSel_ready pg)]
  congr 2
  apply select_of_clearSel_eq isUploadVideoButton _ _ _ (clearSel_ready pg)
  intro e
  unfold Elem.onlyIf
  split <;> rfl

theorem fireAt_invariant (P : Node → Prop) (ls : List (Path × Handler)) (q : Path)
    (h : ∀ l ∈ ls, l.1 = q → ∀ s, P s → P (l.2.run q s)) (s : Node) (hs : P s) :
    P (fireAt ls q s) := by
  unfold fireAt
  apply foldl_invariant P _ ls s _ hs
  intro s1 l hl hs1
  by_cases hq : l.1 = q
  · simp only [hq, if_true]
    exact h l hl hq s1 hs1
  · simpa [hq] using hs1

theorem dispatchClick_invariant (P : Node → Prop) (ls : List (Path × Handler)) (t : Path)
    (h : ∀ q ∈ bubblePath t, ∀ l ∈ ls, l.1 = q → ∀ s, P s → P (l.2.run q s))
    (s : Node) (hs : P s) : P (dispatchClick ls t s) := by
  unfold dispatchClick
  apply foldl_invariant P _ _ s _ hs
  intro s1 q hq hs1
  exact fireAt_invariant P ls q (h q hq) s1 hs1

theorem fireAt_append (xs ys : List (Path × Handler)) (q : Path) (s : Node) :
    fireAt (xs ++ ys) q s = fireAt ys q (fireAt xs q s) := by
  simp [fireAt, List.foldl_append]

theorem fireAt_map_nodup (h : Handler) (t : Path) :
    ∀ (us : List Path), us.Nodup → t ∈ us → ∀ s : Node,
      fireAt (us.map (fun p => (p, h))) t s = h.run t s := by
  intro us
  induction us with
  | nil => intro _ ht; simp at ht
  | cons x us ih =>
    intro hnd ht s
    have hnd2 := List.nodup_cons.mp hnd
    by_cases hx : x = t
    · subst hx
      have hrest : fireAt (us.map (fun p => (p, h))) x (h.run x s) = h.run x s := by
        apply fireAt_of_no_listener
        intro l hl hlq
        obtain ⟨p, hp, rfl⟩ := List.mem_map.mp hl
        simp only at hlq
        subst hlq
        exact hnd2.1 hp
      simpa [fireAt] using hrest
    · have ht2 : t ∈ us := by
        rcases List.mem_cons.mp ht with h1 | h1
        · exact absurd h1.symm hx
        · exact h1
      have := ih hnd2.2 ht2 s
      simpa [fireAt, hx] using this

/-- A click on an upload trigger that is not a selector button, and above which
there is neither a selector button nor another upload trigger, runs the upload
handler once and nothing else. -/
theorem dispatchClick_trigger (pg : Node) (t : Path)
    (ht : t ∈ pg.select isUploadVideoButton)
    (hsel : ∀ q ∈ bubblePath t, q ∉ pg.select isSelectorButton)
    (hup : ∀ q ∈ ancestors t, q ∉ pg.select isUploadVideoButton) (s : Node) :
    dispatchClick (ready pg).listeners t s = uploadClick s := by
  unfold dispatchClick bubblePath
  rw [List.foldl_cons, foldl_eq_self]
  · rw [ready_listeners, fireAt_append, fireAt_of_no_listener _ t s,
      fireAt_map_nodup Handler.upload t _ (Node.select_nodup _ _) ht]
    · rfl
    · intro l hl hlq
      obtain ⟨p, hp, rfl⟩ := List.mem_map.mp hl
      simp only at hlq
      subst hlq
      exact hsel p (by simp [bubblePath]) hp
  · intro s1 q hq
    apply fireAt_of_no_listener
    intro l hl hlq
    rcases mem_ready_listeners pg l hl with h1 | h1
    · rw [hlq] at h1
      exact hsel q (by simp [bubblePath, hq]) h1.2
    · rw [hlq] at h1
      exact hup q hq h1.2

theorem clicks_triggers (pg : Node) :
    ∀ ts : List Path,
      (∀ t ∈ ts, t ∈ pg.select isUploadVideoButton ∧
        (∀ q ∈ bubblePath t, q ∉ pg.select isSelectorButton) ∧
        (∀ q ∈ ancestors t, q ∉ pg.select isUploadVideoButton)) →
      clicks (ready pg).listeners ts pg = uploadClicks ts.length pg := by
  intro ts
  induction ts using List.reverseRecOn with
  | nil => intro _; rfl
  | append_singleton ts t ih =>
    intro h
    have ht := h t (by simp)
    have hstep : clicks (ready pg).listeners (ts ++ [t]) pg
        = dispatchClick (ready pg).listeners t (clicks (ready pg).listeners ts pg) := by
      simp [clicks, List.foldl_append]
    rw [hstep, dispatchClick_trigger pg t ht.1 ht.2.1 ht.2.2,
      ih (fun x hx => h x (List.mem_append_left _ hx))]
    simp [uploadClicks]

/-- A click on a selector button with no upload trigger at it or above it runs
selection handlers only: the page stays the same outside the class `selected`
of the selector buttons. -/
theorem clearSel_click_selector (pg : Node) (b : Path)
    (hbu : ∀ q ∈ bubblePath b, q ∉ pg.select isUploadVideoButton) :
    clearSel (dispatchClick (ready pg).listeners b pg) = clearSel pg := by
  apply dispatchClick_invariant (fun s => clearSel s = clearSel pg) _ b _ pg rfl
  intro q hq l hl hlq s hs
  rcases mem_ready_listeners pg l hl with h1 | h1
  · rw [h1.1]
    simp only [Handler.run]
    rw [clearSel_selectorClick s q, hs]
    rw [group_of_clearSel_eq s pg hs, ← hlq]
    exact h1.2
  · rw [hlq] at h1
    exact absurd h1.2 (hbu q hq)

/-- A click on an upload trigger with no selector button at it or above it runs
upload handlers only: a matched set that `.show()` and the added form do not
touch stays the same. -/
theorem select_click_trigger (sel : Elem → Bool) (h1 : ∀ e, sel (Elem.showInline e) = sel e)
    (h2 : uploadForm.select sel = []) (pg : Node) (u : Path)
    (hub : ∀ q ∈ bubblePath u, q ∉ pg.select isSelectorButton) :
    (dispatchClick (ready pg).listeners u pg).select sel = pg.select sel := by
  apply dispatchClick_invariant (fun s => s.select sel = pg.select sel) _ u _ pg rfl
  intro q hq l hl hlq s hs
  rcases mem_ready_listeners pg l hl with h3 | h3
  · rw [hlq] at h3
    exact absurd h3.2 (hub q hq)
  · rw [h3.1]
    simp only [Handler.run]
    rw [select_uploadClick sel h1 h2 s, hs]

/-! ## The claims -/

/-- C1: for every page and every button `b` matched by `button.selector-button`,
after the selection handler has run with `this = b` the selector buttons that
carry the class `selected` are exactly the single button `b`; the group of
selector buttons itself is the one of the page before. -/
theorem selectorClick_selects_exactly_clicked (pg : Node) (b : Path)
    (hb : b ∈ pg.select isSelectorButton) :
    (selectorClick b pg).select isSelectedButton = [b] ∧
      (selectorClick b pg).select isSelectorButton = pg.select isSelectorButton :=
  ⟨eq_singleton_of_nodup _ b (Node.select_nodup _ _) (mem_selected_selectorClick pg b hb),
    selectorClick_group b pg⟩

/-- C1 witness: on `pageTools`, running the handler for the first button. -/
theorem selectorClick_selects_exactly_clicked_witness :
    [0] ∈ pageTools.select isSelectorButton ∧
      ((selectorClick [0] pageTools).select isSelectedButton = [[0]] ∧
        (selectorClick [0] pageTools).select isSelectorButton
          = pageTools.select isSelectorButton) :=
  ⟨by decide, selectorClick_selects_exactly_clicked pageTools [0] (by decide)⟩

/-- C2 counterexample: on a page whose `button#videos-tool-button` lacks the
class `selector-button`, the button does not carry `selected` after the
document-ready function has run; nor does it on a page where it is a selector
button nested in another selector button, to which the triggered click bubbles. -/
theorem ready_videos_button_not_selected :
    ([0] ∈ pagePlainVideosButton.select isVideosToolButton ∧
      ((ready pagePlainVideosButton).page.elemAt [0]).map (fun e => e.hasClass "selected")
        = some false) ∧
    ([0, 0] ∈ pageNestedVideosButton.select isVideosToolButton ∧
      [0, 0] ∈ pageNestedVideosButton.select isSelectorButton ∧
      ((ready pageNestedVideosButton).page.elemAt [0, 0]).map (fun e => e.hasClass "selected")
        = some false) := by
  decide

/-- C2 (amended): when the button of id `videos-tool-button` (the last one in
document order if several share the id) also has the class `selector-button`
and none of its ancestors is a selector button, then after the document-ready
function has run it is still the button of that id at its position and it
carries the class `selected`. -/
theorem ready_selects_videos_button (pg : Node) (t : Path)
    (hlast : (pg.select isVideosToolButton).getLast? = some t)
    (hsel : t ∈ pg.select isSelectorButton)
    (hanc : ∀ q ∈ ancestors t, q ∉ pg.select isSelectorButton) :
    ∃ e, (ready pg).page.elemAt t = some e ∧ isVideosToolButton e = true ∧
      e.hasClass "selected" = true := by
  have h1 := ready_last_target_selected pg t hlast hsel hanc
  obtain ⟨e, he, hs⟩ := (Node.mem_select _ _ t).mp h1
  have hmem : t ∈ pg.select isVideosToolButton :=
    List.mem_of_mem_getLast? hlast
  have h2 : (ready pg).page.select isVideosToolButton = pg.select isVideosToolButton := by
    apply select_of_clearSel_eq isVideosToolButton _ _ _ (clearSel_ready pg)
    intro e1
    unfold Elem.onlyIf
    split <;> rfl
  rw [← h2] at hmem
  obtain ⟨e2, he2, hv⟩ := (Node.mem_select _ _ t).mp hmem
  rw [he] at he2
  cases he2
  refine ⟨e, he, hv, ?_⟩
  unfold isSelectedButton at hs
  simp only [Bool.and_eq_true] at hs
  exact hs.2

/-- C2 witness: on `pageTools` the videos-tool button is the first child of the body. -/
theorem ready_selects_videos_button_witness :
    (pageTools.select isVideosToolButton).getLast? = some [0] ∧
      [0] ∈ pageTools.select isSelectorButton ∧
      (∀ q ∈ ancestors [0], q ∉ pageTools.select isSelectorButton) ∧
      ∃ e, (ready pageTools).page.elemAt [0] = some e ∧ isVideosToolButton e = true ∧
        e.hasClass "selected" = true :=
  ⟨by decide, by decide, by decide,
    ready_selects_videos_button pageTools [0] (by decide) (by decide) (by decide)⟩

/-- C3 counterexample: on a page whose `#popup`, with inline display `none`,
lacks the class `popups`, the upload handler puts the form into `#popup` and
runs `.show()` on no element, so the container that receives the form is not
one that `.show()` has run on; on a page without `#popup` the call runs on the
element of class `popups` and no form is inserted at all. -/
theorem uploadClick_form_holder_not_shown :
    (popupPath pagePopupNotPopups = some [0] ∧
      uploadClick pagePopupNotPopups
        = el "body" none [] true [el "div" (some "popup") [] false [uploadForm]] ∧
      ((uploadClick pagePopupNotPopups).elemAt [0]).map (fun e => e.inlineShown) = some false ∧
      (uploadClick pagePopupNotPopups).select isInlineShownPopups = []) ∧
    (popupPath pageNoPopup = none ∧
      uploadClick pageNoPopup = el "body" none [] true [el "div" none ["popups"] true []]) := by
  decide

/-- C3 (amended): when the page has an element of id `popup` and the first
such element has the class `popups`, then after the upload handler has run
that element is still `$("#popup")`, it is one of the elements that `.show()`
has run on, so that its inline display is not `none`, its last child is the
form built by the handler, and that form has action `/api/video/upload`, method
`post`, enctype `multipart/form-data`, and among its descendants a required
input of type `file` named `file` and an input of type `text` named `name`. -/
theorem uploadClick_shows_popup_holding_form (pg : Node) (p : Path)
    (hp : popupPath pg = some p) (hcls : p ∈ pg.select isPopups) :
    popupPath (uploadClick pg) = some p ∧
    p ∈ (uploadClick pg).select isInlineShownPopups ∧
    (∃ cs, (uploadClick pg).childrenAt p = some (cs ++ [uploadForm])) ∧
    uploadForm.hasTag "form" = true ∧
    uploadForm.getAttr "action" = some "/api/video/upload" ∧
    uploadForm.getAttr "method" = some "post" ∧
    uploadForm.getAttr "enctype" = some "multipart/form-data" ∧
    (∃ d ∈ uploadForm.descendants, d.hasTag "input" = true ∧ d.getAttr "type" = some "file" ∧
      d.getAttr "name" = some "file" ∧ d.getProp "required" = some true) ∧
    (∃ d ∈ uploadForm.descendants, d.hasTag "input" = true ∧ d.getAttr "type" = some "text" ∧
      d.getAttr "name" = some "name") := by
  obtain ⟨e, he, hpop⟩ := (Node.mem_select isPopups pg p).mp hcls
  obtain ⟨cs, hcs⟩ := Node.childrenAt_of_elemAt pg p e he
  have hpath : popupPath (uploadClick pg) = some p := by rw [popupPath_uploadClick, hp]
  refine ⟨hpath, ?_, ?_, by decide, by decide, by decide, by decide, by decide, by decide⟩
  · apply (Node.mem_select isInlineShownPopups _ p).mpr
    refine ⟨_, elemAt_uploadClick pg p e he, ?_⟩
    have hpop2 : isPopups (Elem.showInline e) = true := hpop
    unfold Elem.onlyIf
    rw [if_pos hpop]
    unfold isInlineShownPopups
    rw [hpop2]
    rfl
  · have h1 : (uploadClick pg).childrenAt p
        = (pg.childrenAt p).map (fun cs => cs.map (showAll isPopups) ++ [uploadForm]) := by
      have h2 := popupChildren_uploadClick pg
      unfold popupChildren at h2
      rw [hpath, hp] at h2
      exact h2
    rw [hcs] at h1
    exact ⟨_, h1⟩

/-- C3 witness: on `pageTools` the `#popup` of class `popups`, with inline
display `none`, is the fourth child of the body. -/
theorem uploadClick_shows_popup_holding_form_witness :
    popupPath pageTools = some [3] ∧
      [3] ∈ pageTools.select isPopups ∧
      popupPath (uploadClick pageTools) = some [3] ∧
      [3] ∈ (uploadClick pageTools).select isInlineShownPopups ∧
      (∃ cs, (uploadClick pageTools).childrenAt [3] = some (cs ++ [uploadForm])) :=
  have h := uploadClick_shows_popup_holding_form pageTools [3] (by decide) (by decide)
  ⟨by decide, by decide, h.1, h.2.1, h.2.2.1⟩

/-- C4: the form built by the upload handler has its `target` attribute equal
to `formdummy`, and on every page, after any number `n` of earlier clicks, the
node the handler adds as last child of `#popup` is that same form. -/
theorem uploadForm_target_formdummy :
    uploadForm.getAttr "target" = some "formdummy" ∧
    ∀ (pg : Node) (n : Nat), popupChildren (uploadClick (uploadClicks n pg))
      = (popupChildren (uploadClicks n pg)).map
          (fun cs => cs.map (showAll isPopups) ++ [uploadForm]) :=
  ⟨by decide, fun pg n => popupChildren_uploadClick (uploadClicks n pg)⟩

/-- C5: the inputs of the form built by the upload handler are, in order, the
input named `file` (type `file`, property `required` set to true), the input
named `name` (type `text`, property `required` not set) and the submit input,
which has no name; no other node of the form has a name, so the named fields
are exactly `file` and `name`.  On every page, after any number `n` of earlier
clicks, the node the handler adds as last child of `#popup` is that form. -/
theorem uploadForm_named_fields :
    uploadForm.inputs.map (fun d => (d.getAttr "name", d.getAttr "type", d.getProp "required"))
      = [(some "file", some "file", some true), (some "name", some "text", none),
         (none, some "submit", none)] ∧
    uploadForm.descendants.filterMap (fun d => d.getAttr "name") = ["file", "name"] ∧
    ∀ (pg : Node) (n : Nat), popupChildren (uploadClick (uploadClicks n pg))
      = (popupChildren (uploadClicks n pg)).map
          (fun cs => cs.map (showAll isPopups) ++ [uploadForm]) :=
  ⟨by decide, by decide, fun pg n => popupChildren_uploadClick (uploadClicks n pg)⟩

/-- C6 counterexample: on a page whose upload trigger is also a selector
button, one click on it, after the document-ready function has run, runs both
handlers: `#popup` gets a form as child, `.show()` runs on the element of class
`popups`,
and the class `selected` moves from the first button to the clicked one. -/
theorem click_runs_both_handlers :
    [1] ∈ pageTriggerIsSelector.select isSelectorButton ∧
    [1] ∈ pageTriggerIsSelector.select isUploadVideoButton ∧
    popupChildren (ready pageTriggerIsSelector).page = some [] ∧
    popupChildren (dispatchClick (ready pageTriggerIsSelector).listeners [1]
      (ready pageTriggerIsSelector).page) = some [uploadForm] ∧
    (ready pageTriggerIsSelector).page.select isInlineShownPopups = [] ∧
    (dispatchClick (ready pageTriggerIsSelector).listeners [1]
      (ready pageTriggerIsSelector).page).select isInlineShownPopups = [[2]] ∧
    (ready pageTriggerIsSelector).page.select isMarkedButton = [[0]] ∧
    (dispatchClick (ready pageTriggerIsSelector).listeners [1]
      (ready pageTriggerIsSelector).page).select isMarkedButton = [[1]] := by
  decide

/-- C6 (amended): with the listeners that the document-ready function binds, a
click on a selector button `b` that neither is nor lies inside an upload
trigger changes only the class `selected` of the selector buttons: `#popup` is
the same element, its children are the same up to that class on the selector
buttons among them and their descendants, the elements of class `popups` are
the same and so are those of them whose inline display is not `none`.  A click
on an element `u` that neither is nor lies inside a selector button, as on an
upload trigger of that kind, leaves the buttons of the page the same, and the
buttons that carry the class `selected` the same.  The same two statements hold
for a run of the selection handler for `b`, and for a run of the upload
handler, by themselves. -/
theorem handlers_frame (pg : Node) (b u : Path)
    (hb : b ∈ pg.select isSelectorButton)
    (hbu : ∀ q ∈ bubblePath b, q ∉ pg.select isUploadVideoButton)
    (hub : ∀ q ∈ bubblePath u, q ∉ pg.select isSelectorButton) :
    (clearSel (dispatchClick (ready pg).listeners b pg) = clearSel pg ∧
      popupPath (dispatchClick (ready pg).listeners b pg) = popupPath pg ∧
      (popupChildren (dispatchClick (ready pg).listeners b pg)).map (List.map clearSel)
        = (popupChildren pg).map (List.map clearSel) ∧
      (dispatchClick (ready pg).listeners b pg).select isPopups = pg.select isPopups ∧
      (dispatchClick (ready pg).listeners b pg).select isInlineShownPopups
        = pg.select isInlineShownPopups) ∧
    ((dispatchClick (ready pg).listeners u pg).select isButton = pg.select isButton ∧
      (dispatchClick (ready pg).listeners u pg).select isMarkedButton
        = pg.select isMarkedButton) ∧
    (clearSel (selectorClick b pg) = clearSel pg ∧
      popupPath (selectorClick b pg) = popupPath pg ∧
      (popupChildren (selectorClick b pg)).map (List.map clearSel)
        = (popupChildren pg).map (List.map clearSel) ∧
      (selectorClick b pg).select isPopups = pg.select isPopups ∧
      (selectorClick b pg).select isInlineShownPopups = pg.select isInlineShownPopups ∧
      (uploadClick pg).select isButton = pg.select isButton ∧
      (uploadClick pg).select isMarkedButton = pg.select isMarkedButton) := by
  have hc := clearSel_click_selector pg b hbu
  have h := clearSel_selectorClick pg b hb
  refine ⟨⟨hc, ?_, popupChildren_of_clearSel_eq _ _ hc,
      select_of_clearSel_eq isPopups isPopups_unmark _ _ hc,
      select_of_clearSel_eq isInlineShownPopups isInlineShownPopups_unmark _ _ hc⟩,
    ⟨select_click_trigger isButton (fun _ => rfl) (by decide) pg u hub,
      select_click_trigger isMarkedButton (fun _ => rfl) (by decide) pg u hub⟩,
    ⟨h, ?_, popupChildren_of_clearSel_eq _ _ h,
      select_of_clearSel_eq isPopups isPopups_unmark _ _ h,
      select_of_clearSel_eq isInlineShownPopups isInlineShownPopups_unmark _ _ h,
      select_uploadClick isButton (fun _ => rfl) (by decide) pg,
      select_uploadClick isMarkedButton (fun _ => rfl) (by decide) pg⟩⟩
  · unfold popupPath
    rw [select_of_clearSel_eq isPopup isPopup_unmark _ _ hc]
  · unfold popupPath
    rw [select_of_clearSel_eq isPopup isPopup_unmark _ _ h]

/-- C6 witness: on `pageTools`, a click on the first selector button and a
click on the upload trigger. -/
theorem handlers_frame_witness :
    [0] ∈ pageTools.select isSelectorButton ∧
      (∀ q ∈ bubblePath [0], q ∉ pageTools.select isUploadVideoButton) ∧
      [2] ∈ pageTools.select isUploadVideoButton ∧
      (∀ q ∈ bubblePath [2], q ∉ pageTools.select isSelectorButton) ∧
      clearSel (dispatchClick (ready pageTools).listeners [0] pageTools) = clearSel pageTools ∧
      (dispatchClick (ready pageTools).listeners [0] pageTools).select isInlineShownPopups
        = pageTools.select isInlineShownPopups ∧
      (dispatchClick (ready pageTools).listeners [2] pageTools).select isMarkedButton
        = pageTools.select isMarkedButton :=
  have h := handlers_frame pageTools [0] [2] (by decide) (by decide) (by decide)
  ⟨by decide, by decide, by decide, by decide, h.1.1, h.1.2.2.2.2, h.2.1.2⟩

/-- C7 counterexample: on a page whose `#popup` holds a form of class `popups`
with inline display `none`, one run of the upload handler writes the display of
that earlier form, which is not left unchanged; on a page whose upload trigger
lies inside another upload trigger, one click on the inner one adds two forms;
on a page whose upload trigger is also a selector button and whose `#popup`
holds a selected selector button, one click takes the class `selected` off that
earlier child. -/
theorem uploadClick_changes_earlier_form :
    (popupChildren pagePopupHoldsHiddenForm = some [el "form" none ["popups"] false []] ∧
      popupChildren (uploadClicks 1 pagePopupHoldsHiddenForm)
        = some [el "form" none ["popups"] true [], uploadForm] ∧
      popupChildren (uploadClicks 1 pagePopupHoldsHiddenForm)
        ≠ some ([el "form" none ["popups"] false []] ++ List.replicate 1 uploadForm)) ∧
    ([0, 0] ∈ pageNestedTriggers.select isUploadVideoButton ∧
      popupChildren (ready pageNestedTriggers).page = some [] ∧
      popupChildren (clicks (ready pageNestedTriggers).listeners [[0, 0]]
        (ready pageNestedTriggers).page) = some [uploadForm, uploadForm]) ∧
    ([0] ∈ pageTriggerIsSelectorPopupHoldsButton.select isUploadVideoButton ∧
      popupChildren (ready pageTriggerIsSelectorPopupHoldsButton).page
        = some [el "button" none ["selector-button", "selected"] true []] ∧
      popupChildren (clicks (ready pageTriggerIsSelectorPopupHoldsButton).listeners [[0]]
        (ready pageTriggerIsSelectorPopupHoldsButton).page)
        = some [el "button" none ["selector-button"] true [], uploadForm]) := by
  decide

/-- C7 (amended): take a page whose `#popup` has children `cs`, the listeners
that the document-ready function binds, and clicks on upload triggers `ts` each
of which is not a selector button and has neither a selector button nor another
upload trigger above it.  Each click is one run of the upload handler, and after
the clicks the children of `#popup` are the earlier ones in their original
order, each unchanged except that (once a click has run) `.show()` has run on
the elements of class `popups` in it, whose inline display is then not `none`,
followed by one copy of the form built by the handler per click; so the number
of forms among them is the earlier number plus the number of clicks.  The same
holds for `n` runs of the upload handler by themselves, and one more run always
changes the children of `#popup`. -/
theorem uploadClicks_appends_forms (pg : Node) (cs : List Node) (ts : List Path)
    (h : popupChildren pg = some cs)
    (hts : ∀ t ∈ ts, t ∈ pg.select isUploadVideoButton ∧
      (∀ q ∈ bubblePath t, q ∉ pg.select isSelectorButton) ∧
      (∀ q ∈ ancestors t, q ∉ pg.select isUploadVideoButton)) :
    clicks (ready pg).listeners ts pg = uploadClicks ts.length pg ∧
    popupChildren (clicks (ready pg).listeners ts pg)
      = some ((if ts.length = 0 then cs else cs.map (showAll isPopups))
          ++ List.replicate ts.length uploadForm) ∧
    (popupChildren (clicks (ready pg).listeners ts pg)).map formCount
      = some (formCount cs + ts.length) ∧
    ∀ n : Nat,
      popupChildren (uploadClicks n pg)
        = some ((if n = 0 then cs else cs.map (showAll isPopups))
            ++ List.replicate n uploadForm) ∧
      (popupChildren (uploadClicks n pg)).map formCount = some (formCount cs + n) ∧
      popupChildren (uploadClicks (n + 1) pg) ≠ popupChildren (uploadClicks n pg) := by
  have key : ∀ k : Nat, popupChildren (uploadClicks k pg)
      = some ((if k = 0 then cs else cs.map (showAll isPopups))
          ++ List.replicate k uploadForm) := by
    intro k
    cases k with
    | zero => simpa [uploadClicks] using h
    | succ k => simpa using popupChildren_uploadClicks pg cs h k
  have cnt : ∀ k : Nat, (popupChildren (uploadClicks k pg)).map formCount
      = some (formCount cs + k) := by
    intro k
    rw [key k]
    simp only [Option.map_some', formCount_append, formCount_replicate, Option.some.injEq,
      Nat.add_right_cancel_iff]
    split
    · rfl
    · exact formCount_showAll cs
  have hcl := clicks_triggers pg ts hts
  refine ⟨hcl, ?_, ?_, ?_⟩
  · rw [hcl]
    exact key ts.length
  · rw [hcl]
    exact cnt ts.length
  · intro n
    refine ⟨key n, cnt n, ?_⟩
    rw [key n, key (n + 1)]
    intro heq
    have hl : (if n = 0 then cs else cs.map (showAll isPopups)).length = cs.length := by
      split <;> simp
    have hlen := congrArg (fun o => o.map List.length) heq
    simp only [Option.map_some', List.length_append, List.length_replicate,
      Option.some.injEq, hl] at hlen
    simp at hlen

/-- C7 witness: three clicks on the upload trigger of `pageTools`, whose
`#popup` is empty. -/
theorem uploadClicks_appends_forms_witness :
    popupChildren pageTools = some [] ∧
      (∀ t ∈ [[2], [2], [2]], t ∈ pageTools.select isUploadVideoButton ∧
        (∀ q ∈ bubblePath t, q ∉ pageTools.select isSelectorButton) ∧
        (∀ q ∈ ancestors t, q ∉ pageTools.select isUploadVideoButton)) ∧
      popupChildren (clicks (ready pageTools).listeners [[2], [2], [2]] pageTools)
        = some (List.replicate 3 uploadForm) ∧
      (popupChildren (clicks (ready pageTools).listeners [[2], [2], [2]] pageTools)).map
        formCount = some 3 :=
  have h := uploadClicks_appends_forms pageTools [] [[2], [2], [2]] (by decide) (by decide)
  ⟨by decide, by decide, h.2.1, h.2.2.1⟩

/-- C8: after a non-empty sequence of runs of the selection handler, each for a
selector button of the page, the page is the one obtained by running the handler
for the last button alone; in particular running it twice for the same button
gives the page obtained by running it once. -/
theorem selectorClicks_eq_last (pg : Node) (bs : List Path) (b : Path)
    (h : ∀ a ∈ bs ++ [b], a ∈ pg.select isSelectorButton) :
    selectorClicks (bs ++ [b]) pg = selectorClick b pg ∧
      (selectorClicks (bs ++ [b]) pg).select isSelectedButton
        = (selectorClick b pg).select isSelectedButton ∧
      selectorClick b (selectorClick b pg) = selectorClick b pg := by
  have hb : b ∈ pg.select isSelectorButton := h b (by simp)
  have hfr := selectorClicks_frame pg bs (fun x hx => h x (List.mem_append_left _ hx))
  have hstep : selectorClicks (bs ++ [b]) pg = selectorClick b (selectorClicks bs pg) := by
    simp [selectorClicks, List.foldl_append]
  have heq : selectorClicks (bs ++ [b]) pg = selectorClick b pg := by
    rw [hstep, selectorClick_eq, hfr.1, selectorClick_eq]
  exact ⟨heq, by rw [heq], selectorClick_selectorClick pg b b hb⟩

/-- C8 witness: on `pageTools`, the second button then the first. -/
theorem selectorClicks_eq_last_witness :
    (∀ a ∈ [[1]] ++ [[0]], a ∈ pageTools.select isSelectorButton) ∧
      selectorClicks ([[1]] ++ [[0]]) pageTools = selectorClick [0] pageTools ∧
      (selectorClicks ([[1]] ++ [[0]]) pageTools).select isSelectedButton
        = (selectorClick [0] pageTools).select isSelectedButton ∧
      selectorClick [0] (selectorClick [0] pageTools) = selectorClick [0] pageTools :=
  ⟨by decide, selectorClicks_eq_last pageTools [[1]] [0] (by decide)⟩

/-- C9: the form built by the upload handler has exactly four children, in this
order: an `h2` of class `red-hat-bold` with text `Upload video`; a `p` holding
a `label` whose content is the text `File: ` followed by the file input (with
its `required` property and the attribute that reflects it); a `p`
holding a `label` whose content is the text `Description:` followed by a `br`
and the text input; an input of type `submit` with value `Upload`.  On every
page, after any number `n` of earlier clicks, the node the handler adds as last
child of `#popup` is that same form. -/
theorem uploadForm_children :
    uploadForm.hasTag "form" = true ∧
    uploadForm.children =
      [Node.element ⟨"h2", [], ["red-hat-bold"], [], [("margin-top", "0.5em")], true⟩
         [Node.textNode "Upload video"],
       Node.element ⟨"p", [], [], [], [], true⟩
         [Node.element ⟨"label", [], [], [], [], true⟩
           [Node.textNode "File: ",
            Node.element ⟨"input", [("name", "file"), ("type", "file"), ("required", "")], [],
              [("required", true)], [], true⟩ []]],
       Node.element ⟨"p", [], [], [], [], true⟩
         [Node.element ⟨"label", [("for", "name")], [], [], [], true⟩
           [Node.textNode "Description:",
            Node.element ⟨"br", [], [], [], [], true⟩ [],
            Node.element ⟨"input", [("name", "name"), ("type", "text")], [], [], [], true⟩ []]],
       Node.element ⟨"input", [("type", "submit"), ("value", "Upload")], [], [], [], true⟩ []] ∧
    ∀ (pg : Node) (n : Nat), popupChildren (uploadClick (uploadClicks n pg))
      = (popupChildren (uploadClicks n pg)).map
          (fun cs => cs.map (showAll isPopups) ++ [uploadForm]) :=
  ⟨by decide, by decide, fun pg n => popupChildren_uploadClick (uploadClicks n pg)⟩

/-- C10: the document-ready function leaves the page unchanged outside the
class `selected` of the selector buttons, the only state it changes: `#popup`
is the same element with the same children (up to that class on the selector
buttons among them and their descendants) and the same number of forms, so no
form is built, and the elements of class `popups` are the same and so are those
of them whose inline display is not `none`, so `.show()` runs on none. -/
theorem ready_frame (pg : Node) :
    clearSel (ready pg).page = clearSel pg ∧
    popupPath (ready pg).page = popupPath pg ∧
    (popupChildren (ready pg).page).map (List.map clearSel)
      = (popupChildren pg).map (List.map clearSel) ∧
    (popupChildren (ready pg).page).map formCount = (popupChildren pg).map formCount ∧
    (ready pg).page.select isPopups = pg.select isPopups ∧
    (ready pg).page.select isInlineShownPopups = pg.select isInlineShownPopups := by
  have h := clearSel_ready pg
  have hc := popupChildren_of_clearSel_eq _ _ h
  refine ⟨h, ?_, hc, ?_,
    select_of_clearSel_eq isPopups isPopups_unmark _ _ h,
    select_of_clearSel_eq isInlineShownPopups isInlineShownPopups_unmark _ _ h⟩
  · unfold popupPath
    rw [select_of_clearSel_eq isPopup isPopup_unmark _ _ h]
  · have h2 := congrArg (fun o => o.map formCount) hc
    simp only [Option.map_map] at h2
    have h3 : (formCount ∘ List.map clearSel) = formCount := by
      funext cs
      exact formCount_clearSel cs
    rw [h3] at h2
    exact h2

end IndexJs
